import Mathlib

/-!
Verification of the web_crawler_project pipeline against its specification.

The Python sources are shallowly embedded here:
  * Python strings are lists of Unicode code points (`List Nat`); the helpers
    `startsW`, `hasSub`, `endsW`, `pystrip`, `pyLower` model `str.startswith`,
    the `in` substring test, `str.endswith`, `str.strip()` and `str.lower()`
    on the ASCII fragment exercised by the crawler.
  * An HTTP fetch is a function from URL to `Response`; the XML "loc" element
    texts of the fetched document (produced by the externally supplied
    BeautifulSoup capability) appear as the `locs` field and `response.text
    .splitlines()` as the `lines` field.
  * Exceptions (`raise_for_status`, `IndexError`) become `Except` / `Option`
    results.
-/

namespace WebCrawler

/-- A Python string, as its list of code points. -/
abbrev S := List Nat

/-- Encode a Lean string literal as a Python string value. -/
def enc (s : String) : S := s.data.map Char.toNat

/-- `startsW pat s` models Python `s.startswith(pat)`. -/
def startsW : S → S → Bool
  | [], _ => true
  | _ :: _, [] => false
  | p :: ps, c :: cs => p == c && startsW ps cs

/-- `hasSub pat s` models Python `pat in s` (substring test). -/
def hasSub (pat : S) : S → Bool
  | [] => pat.isEmpty
  | c :: cs => startsW pat (c :: cs) || hasSub pat cs

/-- `endsW pat s` models Python `s.endswith(pat)`. -/
def endsW (pat s : S) : Bool := startsW pat.reverse s.reverse

/-- ASCII whitespace stripped by Python `str.strip()`. -/
def isPySpace (c : Nat) : Bool := c == 32 || c == 9 || c == 10 || c == 11 || c == 12 || c == 13

/-- Python `s.strip()` on the ASCII fragment. -/
def pystrip (s : S) : S := ((s.dropWhile isPySpace).reverse.dropWhile isPySpace).reverse

/-- Python `str.lower()` on one ASCII code point. -/
def pyLower1 (c : Nat) : Nat := if 65 ≤ c ∧ c ≤ 90 then c + 32 else c

/-- Python `s.lower()` on the ASCII fragment. -/
def pyLower (s : S) : S := s.map pyLower1

/-- The reply to one HTTP fetch: transport status, the text contents of the
"loc" elements of the body parsed as XML (in document order), and the body
split into lines.  XML parsing and line splitting are the externally supplied
capabilities the pipeline depends on, so they arrive pre-applied. -/
structure Response where
  status : Nat
  locs : List S
  lines : List S
deriving DecidableEq

/-- The transport capability: one deterministic response per URL. -/
abbrev Fetch := S → Response

/-- Default sitemap-index URL baked into `sitemap_parser.py`. -/
def INDEX_URL : S := enc "https://www.tasteofhome.com/sitemap_index.xml"

/-- Default robots.txt URL baked into `crawlability_checker.py`. -/
def ROBOTS_URL : S := enc "https://www.tasteofhome.com/robots.txt"

/-- The literal marker selecting recipe sitemaps. -/
def recipeSitemapMarker : S := enc "recipe-sitemap"

/-- Embedding of `sitemap_parser.get_recipe_sitemap_links`: fetch the index,
abort on transport failure (`raise_for_status` raises `HTTPError` exactly for
status codes 400..599; larger codes do not occur in HTTP), collect every
"loc" text and keep the ones containing "recipe-sitemap".  The error value
names the URL whose fetch failed. -/
def get_recipe_sitemap_links (fetch : Fetch) (index_url : S) : Except S (List S) :=
  if 400 ≤ (fetch index_url).status then .error index_url
  else .ok ((fetch index_url).locs.filter (fun u => hasSub recipeSitemapMarker u))

/-- Embedding of `sitemap_parser.extract_urls_from_sitemap`. -/
def extract_urls_from_sitemap (fetch : Fetch) (sitemap_url : S) : Except S (List S) :=
  if 400 ≤ (fetch sitemap_url).status then .error sitemap_url
  else .ok (fetch sitemap_url).locs

/-- The URL filter inside `extract_all_recipe_urls`:
`"/recipes/" in u and not u.endswith((".jpg", ".png", ".jpeg"))`. -/
def isRecipeUrl (u : S) : Bool :=
  hasSub (enc "/recipes/") u &&
    !(endsW (enc ".jpg") u || endsW (enc ".png") u || endsW (enc ".jpeg") u)

/-- The loop of `extract_all_recipe_urls`, instrumented with the list of
sitemap URLs actually fetched (first component), so that abort-without-retry
behaviour is visible in the model.  Mirrors: fetch each child sitemap, filter
its locations, extend the accumulator, break once the accumulator holds at
least `limit` entries. -/
def collectLoopT (fetch : Fetch) (limit : Nat) : List S → List S → List S × Except S (List S)
  | [], acc => ([], .ok acc)
  | s :: rest, acc =>
    match extract_urls_from_sitemap fetch s with
    | .error e => ([s], .error e)
    | .ok urls =>
      let acc2 := acc ++ urls.filter isRecipeUrl
      if limit ≤ acc2.length then ([s], .ok acc2)
      else
        let pr := collectLoopT fetch limit rest acc2
        (s :: pr.1, pr.2)

/-- Embedding of `sitemap_parser.extract_all_recipe_urls` (instrumented with
the fetch trace): resolve the child sitemaps from the fixed index URL, take
the first 3, run the accumulation loop, truncate to `limit`. -/
def extract_all_recipe_urlsT (fetch : Fetch) (limit : Nat) : List S × Except S (List S) :=
  match get_recipe_sitemap_links fetch INDEX_URL with
  | .error e => ([INDEX_URL], .error e)
  | .ok sitemaps =>
    let pr := collectLoopT fetch limit (sitemaps.take 3) []
    (INDEX_URL :: pr.1, pr.2.map (fun l => l.take limit))

/-- `extract_all_recipe_urls` proper: the result without the fetch trace. -/
def extract_all_recipe_urls (fetch : Fetch) (limit : Nat) : Except S (List S) :=
  (extract_all_recipe_urlsT fetch limit).2

/-- The child sitemaps the Resolver reports for a given transport. -/
def childSitemaps (fetch : Fetch) : List S :=
  ((fetch INDEX_URL).locs).filter (fun u => hasSub recipeSitemapMarker u)

/-- Formalisation of the URL Collector clause of the spec: the shortest
prefix of the per-sitemap URL batches whose cumulative length reaches
`limit` (the whole list when it never does) — "stops after the first child
sitemap at which the accumulator has at least limit entries". -/
def prefixReaching (limit : Nat) : List (List S) → List (List S)
  | [] => []
  | l :: ls => if limit ≤ l.length then [l] else l :: prefixReaching (limit - l.length) ls

/-- The Collector result as the specification describes it: filter each of
the first three child sitemaps, concatenate batches until the accumulator
reaches `limit`, return the first `limit` entries. -/
def collectRecipeUrls_spec (fetch : Fetch) (limit : Nat) : List S :=
  ((prefixReaching limit
      (((childSitemaps fetch).take 3).map
        (fun s => ((fetch s).locs).filter isRecipeUrl))).flatten).take limit

theorem collectLoopT_ok (fetch : Fetch) (limit : Nat) :
    ∀ (sms : List S) (acc : List S),
      (∀ s ∈ sms, (fetch s).status < 400) →
      (collectLoopT fetch limit sms acc).2 =
        .ok (acc ++ (prefixReaching (limit - acc.length)
          (sms.map (fun s => ((fetch s).locs).filter isRecipeUrl))).flatten) := by
  intro sms
  induction sms with
  | nil => intro acc _; simp [collectLoopT, prefixReaching]
  | cons s rest ih =>
    intro acc h
    have hs : ¬ 400 ≤ (fetch s).status := by
      have := h s (List.mem_cons_self s rest); omega
    have hrest : ∀ t ∈ rest, (fetch t).status < 400 :=
      fun t ht => h t (List.mem_cons_of_mem s ht)
    by_cases hstop : limit - acc.length ≤ (((fetch s).locs).filter isRecipeUrl).length
    · have hstop2 : limit ≤ acc.length + (((fetch s).locs).filter isRecipeUrl).length := by
        omega
      simp [collectLoopT, extract_urls_from_sitemap, hs, hstop, hstop2, prefixReaching]
    · have hstop2 : ¬ limit ≤ acc.length + (((fetch s).locs).filter isRecipeUrl).length := by
        omega
      have harith : limit - (acc ++ ((fetch s).locs).filter isRecipeUrl).length
          = limit - acc.length - (((fetch s).locs).filter isRecipeUrl).length := by
        rw [List.length_append]; omega
      simp [collectLoopT, extract_urls_from_sitemap, hs, hstop, hstop2, prefixReaching]
      rw [ih _ hrest, harith]
      rw [List.append_assoc]

/-- C1: for every limit > 0 and every transport in which the needed fetches
succeed, `collectRecipeUrls` processes at most the first 3 child sitemaps in
order, keeps from each exactly the locations containing "/recipes/" that do
not end in ".jpg", ".png" or ".jpeg", accumulates them, stops after the first
child sitemap at which the accumulator holds at least `limit` entries, and
returns the first `limit` entries in discovery order. -/
theorem collector_returns_first_limit (fetch : Fetch) (limit : Nat)
    (_hpos : 0 < limit)
    (hidx : (fetch INDEX_URL).status < 400)
    (hch : ∀ s ∈ (childSitemaps fetch).take 3, (fetch s).status < 400) :
    extract_all_recipe_urls fetch limit = .ok (collectRecipeUrls_spec fetch limit) := by
  have hidx' : ¬ 400 ≤ (fetch INDEX_URL).status := by omega
  unfold extract_all_recipe_urls extract_all_recipe_urlsT
  simp only [get_recipe_sitemap_links, if_neg hidx']
  simp only [childSitemaps] at hch
  rw [collectLoopT_ok fetch limit _ [] hch]
  simp [collectRecipeUrls_spec, childSitemaps, Except.map]

/-- A concrete transport exercising the Collector: two recipe sitemaps, one
image URL and one non-recipe URL to be filtered out, limit reached midway
through the second sitemap. -/
def fetchC1 : Fetch := fun u =>
  if u = INDEX_URL then
    ⟨200, [enc "https://x/recipe-sitemap1.xml", enc "https://x/other.xml",
           enc "https://x/recipe-sitemap2.xml"], []⟩
  else if u = enc "https://x/recipe-sitemap1.xml" then
    ⟨200, [enc "https://x/recipes/a", enc "https://x/recipes/b.jpg", enc "https://x/foo"], []⟩
  else if u = enc "https://x/recipe-sitemap2.xml" then
    ⟨200, [enc "https://x/recipes/c", enc "https://x/recipes/d"], []⟩
  else ⟨404, [], []⟩

theorem collector_returns_first_limit_witness :
    extract_all_recipe_urls fetchC1 2 = .ok (collectRecipeUrls_spec fetchC1 2) ∧
    collectRecipeUrls_spec fetchC1 2 = [enc "https://x/recipes/a", enc "https://x/recipes/c"] :=
  ⟨collector_returns_first_limit fetchC1 2 (by decide) (by decide) (by decide), by decide⟩

/-- C2: for every sitemap-index document (fetched successfully), the Resolver
returns exactly the subsequence of the location texts containing the literal
"recipe-sitemap", in document order, with nothing added, nothing satisfying
the marker dropped or collapsed (per-URL multiplicities preserved), and
nothing reordered. -/
theorem resolver_exact_subsequence (fetch : Fetch) (url : S)
    (h : (fetch url).status < 400) :
    get_recipe_sitemap_links fetch url =
      .ok (((fetch url).locs).filter (fun u => hasSub recipeSitemapMarker u)) ∧
    (((fetch url).locs).filter (fun u => hasSub recipeSitemapMarker u)).Sublist
      ((fetch url).locs) ∧
    (∀ u ∈ ((fetch url).locs).filter (fun u => hasSub recipeSitemapMarker u),
      hasSub recipeSitemapMarker u = true) ∧
    (∀ u, hasSub recipeSitemapMarker u = true →
      (((fetch url).locs).filter (fun v => hasSub recipeSitemapMarker v)).count u
        = ((fetch url).locs).count u) := by
  have h' : ¬ 400 ≤ (fetch url).status := by omega
  refine ⟨by simp [get_recipe_sitemap_links, h'], List.filter_sublist _,
    fun u hu => List.of_mem_filter hu, fun u hu => List.count_filter hu⟩

/-- A concrete sitemap index for the Resolver: three entries, the middle one
lacking the marker; one marked entry duplicated. -/
def fetchC2 : Fetch := fun u =>
  if u = INDEX_URL then
    ⟨200, [enc "https://x/recipe-sitemap1.xml", enc "https://x/other.xml",
           enc "https://x/recipe-sitemap1.xml"], []⟩
  else ⟨404, [], []⟩

theorem resolver_exact_subsequence_witness :
    get_recipe_sitemap_links fetchC2 INDEX_URL =
      .ok [enc "https://x/recipe-sitemap1.xml", enc "https://x/recipe-sitemap1.xml"] :=
  ((resolver_exact_subsequence fetchC2 INDEX_URL (by decide)).1).trans
    (congrArg Except.ok (by decide))

/-- The part of a line after its first colon (empty when there is none). -/
def afterFirstColon (l : S) : S := (l.dropWhile (fun c => !(c == 58))).drop 1

/-- Python `":" in line`. -/
def hasColon (l : S) : Bool := l.any (fun c => c == 58)

/-- Python `line.split(":")[1].strip()`: the text between the first colon and
the following colon or end of line, stripped.  `none` models the `IndexError`
raised when the line has no colon. -/
def field2 (l : S) : Option S :=
  if hasColon l then some (pystrip ((afterFirstColon l).takeWhile (fun c => !(c == 58))))
  else none

/-- Python `line.split(":", 1)[1].strip()`: everything after the first colon,
stripped; `none` models the `IndexError` when there is no colon. -/
def restAfterColon (l : S) : Option S :=
  if hasColon l then some (pystrip (afterFirstColon l)) else none

/-- The accumulator of `analyze_robots_txt`'s scanning loop. -/
structure RState where
  disallowed : List S
  allowed : List S
  sitemaps : List S
  crawl_delay : Option S
deriving DecidableEq

/-- One iteration of the line loop in `analyze_robots_txt`: strip the line,
then the `elif` chain on its prefix.  `none` models an uncaught `IndexError`
from indexing the split of a colon-less directive line. -/
def robotsStep (st : RState) (line : S) : Option RState :=
  let l := pystrip line
  if startsW (enc "Disallow") l then
    (field2 l).map (fun v => { st with disallowed := st.disallowed ++ [v] })
  else if startsW (enc "Allow") l then
    (field2 l).map (fun v => { st with allowed := st.allowed ++ [v] })
  else if startsW (enc "sitemap") (pyLower l) then
    (restAfterColon l).map (fun v => { st with sitemaps := st.sitemaps ++ [v] })
  else if startsW (enc "crawl-delay") (pyLower l) then
    (field2 l).map (fun v => { st with crawl_delay := some v })
  else some st

/-- The line loop of `analyze_robots_txt`; an exception aborts the scan. -/
def robotsLoop : List S → RState → Option RState
  | [], st => some st
  | l :: ls, st =>
    match robotsStep st l with
    | none => none
    | some st2 => robotsLoop ls st2

/-- Outcome of `analyze_robots_txt`: the early error-dict return on a
non-200 status, an uncaught exception, or the summary object. -/
inductive RobotsResult where
  | fetchError (status : Nat)
  | crash
  | ok (summary : RState)
deriving DecidableEq

/-- Embedding of `crawlability_checker.analyze_robots_txt`. -/
def analyze_robots_txt (fetch : Fetch) (url : S) : RobotsResult :=
  if (fetch url).status ≠ 200 then .fetchError (fetch url).status
  else
    match robotsLoop (fetch url).lines ⟨[], [], [], none⟩ with
    | none => .crash
    | some st => .ok st

/-- C9: a robots.txt whose sole line is the colon-less directive "Disallow"
makes `analyze_robots_txt` hit an unhandled indexing error instead of
returning a summary. -/
def fetchC9 : Fetch := fun u =>
  if u = ROBOTS_URL then ⟨200, [], [enc "Disallow"]⟩ else ⟨404, [], []⟩

/-- C9: the robots parser is not total over its line input: on a stripped
line that starts with "Disallow" but contains no colon, `analyze_robots_txt`
fails with an indexing error (modelled `.crash`) rather than producing a
summary object. -/
theorem robots_crash_on_colonless_directive :
    startsW (enc "Disallow") (pystrip (enc "Disallow")) = true ∧
    hasColon (pystrip (enc "Disallow")) = false ∧
    analyze_robots_txt fetchC9 ROBOTS_URL = .crash := by decide

theorem collectLoopT_err (fetch : Fetch) (limit : Nat) :
    ∀ (pre : List S) (s : S) (post : List S) (acc : List S),
      (∀ t ∈ pre, (fetch t).status < 400) →
      400 ≤ (fetch s).status →
      acc.length + ((pre.map (fun t => ((fetch t).locs).filter isRecipeUrl)).flatten).length
        < limit →
      collectLoopT fetch limit (pre ++ s :: post) acc = (pre ++ [s], .error s) := by
  intro pre
  induction pre with
  | nil =>
    intro s post acc _ hbad _
    simp [collectLoopT, extract_urls_from_sitemap, hbad]
  | cons t ts ih =>
    intro s post acc hok hbad hlen
    have ht : ¬ 400 ≤ (fetch t).status := by
      have := hok t (List.mem_cons_self t ts); omega
    have hts : ∀ x ∈ ts, (fetch x).status < 400 :=
      fun x hx => hok x (List.mem_cons_of_mem t hx)
    simp only [List.map_cons, List.flatten_cons, List.length_append] at hlen
    have hnostop : ¬ limit ≤ acc.length + (((fetch t).locs).filter isRecipeUrl).length := by
      omega
    simp [collectLoopT, extract_urls_from_sitemap, ht, hnostop]
    rw [ih s post (acc ++ ((fetch t).locs).filter isRecipeUrl) hts hbad
      (by rw [List.length_append]; omega)]
    exact ⟨rfl, rfl⟩

/-- C7: a non-success transport status on the sitemap index, on a child
sitemap reached by the accumulation loop, or on robots.txt, aborts the
current call with an error and no partial result; the fetch trace shows each
document fetched exactly once, with no retry. -/
theorem fetch_failure_aborts (fetch : Fetch) (limit : Nat) (url : S) :
    (400 ≤ (fetch INDEX_URL).status →
      extract_all_recipe_urlsT fetch limit = ([INDEX_URL], .error INDEX_URL)) ∧
    (∀ pre s post,
      (childSitemaps fetch).take 3 = pre ++ s :: post →
      (fetch INDEX_URL).status < 400 →
      (∀ t ∈ pre, (fetch t).status < 400) →
      400 ≤ (fetch s).status →
      ((pre.map (fun t => ((fetch t).locs).filter isRecipeUrl)).flatten).length < limit →
      extract_all_recipe_urlsT fetch limit = (INDEX_URL :: (pre ++ [s]), .error s)) ∧
    ((fetch url).status ≠ 200 →
      analyze_robots_txt fetch url = .fetchError (fetch url).status) := by
  refine ⟨fun hbad => ?_, fun pre s post hsplit hidx hpre hbad hlen => ?_, fun hbad => ?_⟩
  · simp [extract_all_recipe_urlsT, get_recipe_sitemap_links, hbad]
  · have hidx' : ¬ 400 ≤ (fetch INDEX_URL).status := by omega
    simp only [childSitemaps] at hsplit
    simp only [extract_all_recipe_urlsT, get_recipe_sitemap_links, if_neg hidx', hsplit]
    rw [collectLoopT_err fetch limit pre s post [] hpre hbad (by simpa using hlen)]
    simp [Except.map]
  · simp [analyze_robots_txt, hbad]

/-- A transport where every fetch fails with status 500. -/
def fetchC7a : Fetch := fun _ => ⟨500, [], []⟩

/-- A transport where the index and first child sitemap succeed but the
second child sitemap fails with status 500. -/
def fetchC7b : Fetch := fun u =>
  if u = INDEX_URL then
    ⟨200, [enc "https://x/recipe-sitemap1.xml", enc "https://x/recipe-sitemap2.xml"], []⟩
  else if u = enc "https://x/recipe-sitemap1.xml" then
    ⟨200, [enc "https://x/recipes/a"], []⟩
  else ⟨500, [], []⟩

theorem fetch_failure_aborts_witness :
    extract_all_recipe_urlsT fetchC7a 5 = ([INDEX_URL], .error INDEX_URL) ∧
    extract_all_recipe_urlsT fetchC7b 5 =
      (INDEX_URL :: ([enc "https://x/recipe-sitemap1.xml"] ++ [enc "https://x/recipe-sitemap2.xml"]),
        .error (enc "https://x/recipe-sitemap2.xml")) ∧
    analyze_robots_txt fetchC7a ROBOTS_URL = .fetchError (fetchC7a ROBOTS_URL).status :=
  ⟨(fetch_failure_aborts fetchC7a 5 ROBOTS_URL).1 (by decide),
   (fetch_failure_aborts fetchC7b 5 ROBOTS_URL).2.1
     [enc "https://x/recipe-sitemap1.xml"] (enc "https://x/recipe-sitemap2.xml") []
     (by decide) (by decide) (by decide) (by decide) (by decide),
   (fetch_failure_aborts fetchC7a 5 ROBOTS_URL).2.2 (by decide)⟩

/-- The stripped line starts with "Disallow". -/
def isDisallowLine (l : S) : Bool := startsW (enc "Disallow") (pystrip l)

/-- The stripped line starts with "Allow". -/
def isAllowLine (l : S) : Bool := startsW (enc "Allow") (pystrip l)

/-- The stripped line starts case-insensitively with "sitemap". -/
def isSitemapLine (l : S) : Bool := startsW (enc "sitemap") (pyLower (pystrip l))

/-- The stripped line starts case-insensitively with "crawl-delay". -/
def isCrawlDelayLine (l : S) : Bool := startsW (enc "crawl-delay") (pyLower (pystrip l))

/-- The line is one of the four robots.txt directives the scanner reacts to. -/
def isDirectiveLine (l : S) : Bool :=
  isDisallowLine l || isAllowLine l || isSitemapLine l || isCrawlDelayLine l

/-- The colon-split second field of the stripped line, trimmed. -/
def field2of (l : S) : S :=
  pystrip ((afterFirstColon (pystrip l)).takeWhile (fun c => !(c == 58)))

/-- The remainder of the stripped line after its first colon, trimmed. -/
def restOf (l : S) : S := pystrip (afterFirstColon (pystrip l))

/-- Specification view: the Disallowed list collects the second field of each
line starting with "Disallow", in order. -/
def disallowed_spec (lines : List S) : List S := (lines.filter isDisallowLine).map field2of

/-- Specification view of the Allowed list. -/
def allowed_spec (lines : List S) : List S := (lines.filter isAllowLine).map field2of

/-- Specification view of the Sitemaps list (first-colon split only). -/
def sitemaps_spec (lines : List S) : List S := (lines.filter isSitemapLine).map restOf

/-- Specification view of Crawl-Delay: the last crawl-delay line wins, null
when no such line occurs. -/
def crawl_delay_spec (lines : List S) : Option S :=
  ((lines.filter isCrawlDelayLine).map field2of).getLast?

/-- Last-write-wins combination of an update with a previous value. -/
def lastOr (new old : Option S) : Option S :=
  match new with
  | some v => some v
  | none => old

theorem startsW_head_eq {pat l : S} (h : startsW pat l = true) (hne : pat ≠ []) :
    l.head? = pat.head? := by
  cases pat with
  | nil => exact absurd rfl hne
  | cons p ps =>
    cases l with
    | nil => simp [startsW] at h
    | cons c cs =>
      simp only [startsW, Bool.and_eq_true, beq_iff_eq] at h
      simp [h.1]

theorem pyLower_head (s : S) : (pyLower s).head? = s.head?.map pyLower1 := by
  cases s <;> simp [pyLower]

theorem disallow_excl (l : S) (h : isDisallowLine l = true) :
    isAllowLine l = false ∧ isSitemapLine l = false ∧ isCrawlDelayLine l = false := by
  unfold isDisallowLine at h
  have h68 : (pystrip l).head? = some 68 := by
    rw [startsW_head_eq h (by decide)]; decide
  refine ⟨?_, ?_, ?_⟩
  · by_contra hc
    rw [Bool.not_eq_false] at hc
    unfold isAllowLine at hc
    have h65 := startsW_head_eq hc (by decide)
    rw [h68] at h65
    exact absurd h65 (by decide)
  · by_contra hc
    rw [Bool.not_eq_false] at hc
    unfold isSitemapLine at hc
    have hs := startsW_head_eq hc (by decide)
    rw [pyLower_head, h68] at hs
    exact absurd hs (by decide)
  · by_contra hc
    rw [Bool.not_eq_false] at hc
    unfold isCrawlDelayLine at hc
    have hs := startsW_head_eq hc (by decide)
    rw [pyLower_head, h68] at hs
    exact absurd hs (by decide)

theorem allow_excl (l : S) (h : isAllowLine l = true) :
    isSitemapLine l = false ∧ isCrawlDelayLine l = false := by
  unfold isAllowLine at h
  have h65 : (pystrip l).head? = some 65 := by
    rw [startsW_head_eq h (by decide)]; decide
  refine ⟨?_, ?_⟩
  · by_contra hc
    rw [Bool.not_eq_false] at hc
    unfold isSitemapLine at hc
    have hs := startsW_head_eq hc (by decide)
    rw [pyLower_head, h65] at hs
    exact absurd hs (by decide)
  · by_contra hc
    rw [Bool.not_eq_false] at hc
    unfold isCrawlDelayLine at hc
    have hs := startsW_head_eq hc (by decide)
    rw [pyLower_head, h65] at hs
    exact absurd hs (by decide)

theorem sitemap_excl (l : S) (h : isSitemapLine l = true) : isCrawlDelayLine l = false := by
  unfold isSitemapLine at h
  have h115 : (pyLower (pystrip l)).head? = some 115 := by
    rw [startsW_head_eq h (by decide)]; decide
  by_contra hc
  rw [Bool.not_eq_false] at hc
  unfold isCrawlDelayLine at hc
  have hs := startsW_head_eq hc (by decide)
  rw [h115] at hs
  exact absurd hs (by decide)

theorem getLast?_cons_eq_lastOr (x : S) (xs : List S) :
    (x :: xs).getLast? = lastOr xs.getLast? (some x) := by
  induction xs generalizing x with
  | nil => simp [lastOr]
  | cons y ys ih =>
    rw [List.getLast?_cons_cons, ih y]
    cases h : ys.getLast? <;> simp [lastOr]

theorem lastOr_lastOr (a : Option S) (y : S) (o : Option S) :
    lastOr (lastOr a (some y)) o = lastOr a (some y) := by
  cases a <;> rfl

theorem crawl_delay_spec_cons_pos (l : S) (ls : List S) (hC : isCrawlDelayLine l = true) :
    crawl_delay_spec (l :: ls) = lastOr (crawl_delay_spec ls) (some (field2of l)) := by
  unfold crawl_delay_spec
  rw [List.filter_cons, if_pos hC, List.map_cons]
  exact getLast?_cons_eq_lastOr _ _

theorem robotsLoop_spec :
    ∀ (lines : List S) (st : RState),
      (∀ l ∈ lines, isDirectiveLine l = true → hasColon (pystrip l) = true) →
      robotsLoop lines st = some ⟨st.disallowed ++ disallowed_spec lines,
        st.allowed ++ allowed_spec lines,
        st.sitemaps ++ sitemaps_spec lines,
        lastOr (crawl_delay_spec lines) st.crawl_delay⟩ := by
  intro lines
  induction lines with
  | nil =>
    intro st _
    simp [robotsLoop, disallowed_spec, allowed_spec, sitemaps_spec, crawl_delay_spec, lastOr]
  | cons l ls ih =>
    intro st hwf
    have hwfls : ∀ x ∈ ls, isDirectiveLine x = true → hasColon (pystrip x) = true :=
      fun x hx => hwf x (List.mem_cons_of_mem l hx)
    have hwfl := hwf l (List.mem_cons_self l ls)
    by_cases hD : isDisallowLine l = true
    · have hcol : hasColon (pystrip l) = true := hwfl (by simp [isDirectiveLine, hD])
      obtain ⟨hA, hS, hC⟩ := disallow_excl l hD
      have hstep : robotsStep st l =
          some { st with disallowed := st.disallowed ++ [field2of l] } := by
        have hD' := hD
        unfold isDisallowLine at hD'
        simp [robotsStep, hD', field2, hcol, field2of]
      simp only [robotsLoop, hstep]
      rw [ih _ hwfls]
      simp [disallowed_spec, allowed_spec, sitemaps_spec, crawl_delay_spec,
        List.filter_cons, hD, hA, hS, hC]
    · by_cases hA : isAllowLine l = true
      · have hcol : hasColon (pystrip l) = true := hwfl (by simp [isDirectiveLine, hA])
        obtain ⟨hS, hC⟩ := allow_excl l hA
        have hstep : robotsStep st l =
            some { st with allowed := st.allowed ++ [field2of l] } := by
          have hA' := hA
          unfold isAllowLine at hA'
          have hD' : startsW (enc "Disallow") (pystrip l) = false := by
            unfold isDisallowLine at hD
            exact Bool.not_eq_true _ ▸ (Bool.eq_false_iff.mpr hD)
          simp [robotsStep, hA', hD', field2, hcol, field2of]
        simp only [robotsLoop, hstep]
        rw [ih _ hwfls]
        simp [disallowed_spec, allowed_spec, sitemaps_spec, crawl_delay_spec,
          List.filter_cons, hD, hA, hS, hC]
      · by_cases hS : isSitemapLine l = true
        · have hcol : hasColon (pystrip l) = true := hwfl (by simp [isDirectiveLine, hS])
          have hC := sitemap_excl l hS
          have hstep : robotsStep st l =
              some { st with sitemaps := st.sitemaps ++ [restOf l] } := by
            have hS' := hS
            unfold isSitemapLine at hS'
            have hD' : startsW (enc "Disallow") (pystrip l) = false := by
              unfold isDisallowLine at hD; exact Bool.eq_false_iff.mpr hD
            have hA' : startsW (enc "Allow") (pystrip l) = false := by
              unfold isAllowLine at hA; exact Bool.eq_false_iff.mpr hA
            simp [robotsStep, hS', hD', hA', restAfterColon, hcol, restOf]
          simp only [robotsLoop, hstep]
          rw [ih _ hwfls]
          simp [disallowed_spec, allowed_spec, sitemaps_spec, crawl_delay_spec,
            List.filter_cons, hD, hA, hS, hC]
        · by_cases hC : isCrawlDelayLine l = true
          · have hcol : hasColon (pystrip l) = true := hwfl (by simp [isDirectiveLine, hC])
            have hstep : robotsStep st l =
                some { st with crawl_delay := some (field2of l) } := by
              have hC' := hC
              unfold isCrawlDelayLine at hC'
              have hD' : startsW (enc "Disallow") (pystrip l) = false := by
                unfold isDisallowLine at hD; exact Bool.eq_false_iff.mpr hD
              have hA' : startsW (enc "Allow") (pystrip l) = false := by
                unfold isAllowLine at hA; exact Bool.eq_false_iff.mpr hA
              have hS' : startsW (enc "sitemap") (pyLower (pystrip l)) = false := by
                unfold isSitemapLine at hS; exact Bool.eq_false_iff.mpr hS
              simp [robotsStep, hC', hD', hA', hS', field2, hcol, field2of]
            simp only [robotsLoop, hstep]
            rw [ih _ hwfls, crawl_delay_spec_cons_pos l ls hC, lastOr_lastOr]
            simp [disallowed_spec, allowed_spec, sitemaps_spec,
              List.filter_cons, hD, hA, hS]
          · have hstep : robotsStep st l = some st := by
              have hD' : startsW (enc "Disallow") (pystrip l) = false := by
                unfold isDisallowLine at hD; exact Bool.eq_false_iff.mpr hD
              have hA' : startsW (enc "Allow") (pystrip l) = false := by
                unfold isAllowLine at hA; exact Bool.eq_false_iff.mpr hA
              have hS' : startsW (enc "sitemap") (pyLower (pystrip l)) = false := by
                unfold isSitemapLine at hS; exact Bool.eq_false_iff.mpr hS
              have hC' : startsW (enc "crawl-delay") (pyLower (pystrip l)) = false := by
                unfold isCrawlDelayLine at hC; exact Bool.eq_false_iff.mpr hC
              simp [robotsStep, hD', hA', hS', hC']
            simp only [robotsLoop, hstep]
            rw [ih _ hwfls]
            simp [disallowed_spec, allowed_spec, sitemaps_spec, crawl_delay_spec,
              List.filter_cons, hD, hA, hS, hC]

/-- C6: on a successfully fetched robots.txt all of whose directive lines
contain a colon, the summary collects, in line order: the colon-split second
field of each "Disallow" line into Disallowed, of each "Allow" line into
Allowed, the first-colon remainder of each case-insensitive "sitemap" line
into Sitemaps, and sets Crawl-Delay to the second field of the last
case-insensitive "crawl-delay" line, null when none occurs. -/
theorem robots_summary_built_by_scan (fetch : Fetch) (url : S)
    (hok : (fetch url).status = 200)
    (hwf : ∀ l ∈ (fetch url).lines, isDirectiveLine l = true → hasColon (pystrip l) = true) :
    analyze_robots_txt fetch url = .ok ⟨disallowed_spec (fetch url).lines,
      allowed_spec (fetch url).lines, sitemaps_spec (fetch url).lines,
      crawl_delay_spec (fetch url).lines⟩ := by
  simp only [analyze_robots_txt, hok, ne_eq, not_true_eq_false, if_false]
  rw [robotsLoop_spec _ _ hwf]
  cases h : crawl_delay_spec (fetch url).lines <;> simp [lastOr, h]

/-- A concrete robots.txt exercising every directive branch. -/
def fetchC6 : Fetch := fun u =>
  if u = ROBOTS_URL then
    ⟨200, [], [enc "Disallow: /admin/", enc "Sitemap: https://x/a.xml", enc "Crawl-delay: 2"]⟩
  else ⟨404, [], []⟩

theorem robots_summary_built_by_scan_witness :
    analyze_robots_txt fetchC6 ROBOTS_URL =
      .ok ⟨[enc "/admin/"], [], [enc "https://x/a.xml"], some (enc "2")⟩ :=
  (robots_summary_built_by_scan fetchC6 ROBOTS_URL (by decide) (by decide)).trans (by decide)


/-- A code point matched by Python's regex `\w` on the ASCII fragment:
letters, digits, or underscore. -/
def isWordCode (c : Nat) : Bool :=
  (48 ≤ c && c ≤ 57) || (65 ≤ c && c ≤ 90) || (97 ≤ c && c ≤ 122) || c == 95

/-- An ASCII alphanumeric code point (letters or digits, no underscore). -/
def isAlnumCode (c : Nat) : Bool :=
  (48 ≤ c && c ≤ 57) || (65 ≤ c && c ≤ 90) || (97 ≤ c && c ≤ 122)

/-- Accumulator-style splitting of a text into its maximal runs of
code points satisfying `p`; `cur` holds the current run reversed.
`tokenizeBy p` models `re.findall` of `\b`-delimited `\w+`-style runs. -/
def tokAux (p : Nat → Bool) : List Nat → List Nat → List S
  | [], cur => if cur.isEmpty then [] else [cur.reverse]
  | c :: cs, cur =>
    if p c then tokAux p cs (c :: cur)
    else if cur.isEmpty then tokAux p cs []
    else cur.reverse :: tokAux p cs []

/-- The maximal nonempty runs of code points satisfying `p`, in order. -/
def tokenizeBy (p : Nat → Bool) (s : S) : List S := tokAux p s []

/-- The fixed stoplist of `extract_recipe_data`. -/
def stopwords : List S :=
  [enc "the", enc "and", enc "for", enc "with", enc "that", enc "this", enc "from",
   enc "will", enc "have", enc "also", enc "when", enc "which", enc "your", enc "more",
   enc "make", enc "them", enc "their", enc "just", enc "than"]

/-- The keyword filter: `w not in stopwords and len(w) > 3`. -/
def keepToken (w : S) : Bool := !(stopwords.any (fun x => x == w)) && 3 < w.length

/-- One step of `collections.Counter` construction: bump the count of `w`,
keeping first-insertion key order, else append `(w, 1)`. -/
def addCount (acc : List (S × Nat)) (w : S) : List (S × Nat) :=
  if acc.any (fun q => q.1 == w) then
    acc.map (fun q => if q.1 == w then (q.1, q.2 + 1) else q)
  else acc ++ [(w, 1)]

/-- `collections.Counter(ws)` as an association list in first-occurrence
key order. -/
def countsOf (ws : List S) : List (S × Nat) := ws.foldl addCount []

/-- Stable descending insertion by count: an element is placed after every
earlier element whose count is at least its own. -/
def insDesc (x : S × Nat) : List (S × Nat) → List (S × Nat)
  | [] => [x]
  | y :: ys => if x.2 ≥ y.2 then x :: y :: ys else y :: insDesc x ys

/-- Stable sort by count descending, ties in original (first-encountered)
order: the order produced by `Counter.most_common`. -/
def sortDesc : List (S × Nat) → List (S × Nat)
  | [] => []
  | x :: xs => insDesc x (sortDesc xs)

/-- `Counter.most_common(n)`: the `n` highest counts, ties broken by
first-encountered order. -/
def most_common (n : Nat) (c : List (S × Nat)) : List (S × Nat) := (sortDesc c).take n

/-- `" ".join(steps)`. -/
def joinSp (steps : List S) : S := List.intercalate [32] steps

/-- `description + " " + " ".join(steps)`, the text the keywords are drawn
from. -/
def blobOf (description : S) (steps : List S) : S := description ++ [32] ++ joinSp steps

/-- The keyword section of `content_extractor.extract_recipe_data`: lowercase
the blob, split into `\w+` word tokens, drop stopwords and short tokens,
rank by `Counter(...).most_common(10)` and keep the labels. -/
def extract_keywords (description : S) (steps : List S) : List S :=
  let words := tokenizeBy isWordCode (pyLower (blobOf description steps))
  let filtered := words.filter keepToken
  (most_common 10 (countsOf filtered)).map (fun q => q.1)

/-- The keywords field as claim C4 words it: tokenize the blob into maximal
ALPHANUMERIC runs, lowercase the tokens, then filter, rank by frequency with
first-encountered tie order, and take the top 10 labels. -/
def keywords_claim (description : S) (steps : List S) : List S :=
  let words := (tokenizeBy isAlnumCode (blobOf description steps)).map pyLower
  let filtered := words.filter keepToken
  (most_common 10 (countsOf filtered)).map (fun q => q.1)

/-- The amended C4 account: identical to `keywords_claim` except that tokens
are maximal runs of word characters (letters, digits, or underscore), as
Python's `\w` actually matches. -/
def keywords_amended (description : S) (steps : List S) : List S :=
  let words := (tokenizeBy isWordCode (blobOf description steps)).map pyLower
  let filtered := words.filter keepToken
  (most_common 10 (countsOf filtered)).map (fun q => q.1)

/-- C4 counterexample: on the description "cool_mix" the code keeps the
single token "cool_mix" while the claim's alphanumeric tokenization yields
"cool" and "mix" and then drops "mix" as too short, so the two disagree. -/
theorem keywords_alnum_claim_false :
    extract_keywords (enc "cool_mix") [] = [enc "cool_mix"] ∧
    keywords_claim (enc "cool_mix") [] = [enc "cool"] ∧
    extract_keywords (enc "cool_mix") [] ≠ keywords_claim (enc "cool_mix") [] := by decide

theorem isWordCode_pyLower1 (c : Nat) : isWordCode (pyLower1 c) = isWordCode c := by
  rw [Bool.eq_iff_iff]
  unfold isWordCode pyLower1
  split <;>
    simp only [Bool.or_eq_true, Bool.and_eq_true, decide_eq_true_eq, beq_iff_eq] <;>
    omega

theorem tokAux_pyLower (s : List Nat) :
    ∀ cur : List Nat,
      tokAux isWordCode (pyLower s) (pyLower cur) = (tokAux isWordCode s cur).map pyLower := by
  induction s with
  | nil =>
    intro cur
    cases cur with
    | nil => simp [tokAux, pyLower]
    | cons a as => simp [tokAux, pyLower, List.map_reverse]
  | cons c cs ih =>
    intro cur
    by_cases hp : isWordCode c = true
    · have hp2 : isWordCode (pyLower1 c) = true := by rw [isWordCode_pyLower1]; exact hp
      have step : tokAux isWordCode (pyLower (c :: cs)) (pyLower cur)
          = tokAux isWordCode (pyLower cs) (pyLower (c :: cur)) := by
        simp [pyLower, tokAux, hp2]
      rw [step, ih (c :: cur)]
      simp [tokAux, hp]
    · have hp' : isWordCode c = false := Bool.eq_false_iff.mpr hp
      have hp2 : isWordCode (pyLower1 c) = false := by rw [isWordCode_pyLower1]; exact hp'
      cases cur with
      | nil =>
        have step : tokAux isWordCode (pyLower (c :: cs)) (pyLower [])
            = tokAux isWordCode (pyLower cs) (pyLower []) := by
          simp [pyLower, tokAux, hp2]
        rw [step, ih []]
        simp [tokAux, hp']
      | cons a as =>
        have step : tokAux isWordCode (pyLower (c :: cs)) (pyLower (a :: as))
            = (pyLower (a :: as)).reverse :: tokAux isWordCode (pyLower cs) (pyLower []) := by
          simp [pyLower, tokAux, hp2]
        rw [step, ih []]
        simp [tokAux, hp', pyLower, List.map_reverse]

theorem tokenize_pyLower (s : List Nat) :
    tokenizeBy isWordCode (pyLower s) = (tokenizeBy isWordCode s).map pyLower := by
  have h := tokAux_pyLower s []
  simpa [tokenizeBy, pyLower] using h

/-- C4 amended: the keywords field tokenizes (description + " " + joined
instructions) into maximal runs of word characters (letters, digits, or
underscore — Python's `\w`), lowercases the tokens, drops stoplisted tokens
and tokens shorter than 4 characters, ranks by frequency descending with
ties in first-encountered order, and keeps at most the top 10 labels. -/
theorem keywords_word_runs (description : S) (steps : List S) :
    extract_keywords description steps = keywords_amended description steps := by
  unfold extract_keywords keywords_amended
  rw [tokenize_pyLower]

/-- One nutrition list item: `if ":" in text`, split on the FIRST colon into
key and value, both stripped; `none` when the item has no colon. -/
def parseNutritionItem (t : S) : Option (S × S) :=
  if hasColon t then
    some (pystrip (t.takeWhile (fun c => !(c == 58))), pystrip (afterFirstColon t))
  else none

/-- Python dict assignment `d[k] = v`: update the existing entry in place,
else append a new one. -/
def dictInsert (acc : List (S × S)) (k v : S) : List (S × S) :=
  if acc.any (fun q => q.1 == k) then
    acc.map (fun q => if q.1 == k then (k, v) else q)
  else acc ++ [(k, v)]

/-- The nutrition loop of `extract_recipe_data`, over the list-item texts of
the nutrition section. -/
def extract_nutrition : List S → List (S × S) → List (S × S)
  | [], acc => acc
  | t :: rest, acc =>
    match parseNutritionItem t with
    | some (k, v) => extract_nutrition rest (dictInsert acc k v)
    | none => extract_nutrition rest acc

/-- Mapping lookup on the association-list model of a Python dict. -/
def alookup (m : List (S × S)) (k : S) : Option S :=
  (m.find? (fun q => q.1 == k)).map (fun q => q.2)

/-- The value claim C5 predicts for label `k`: the value of the LAST
colon-containing item whose (trimmed) label equals `k`. -/
def lastValueFor (items : List S) (k : S) : Option S :=
  (((items.filterMap parseNutritionItem).filter (fun q => q.1 == k)).map
    (fun q => q.2)).getLast?

theorem alookup_map_update (acc : List (S × S)) (k v k2 : S) (hne : k2 ≠ k) :
    alookup (acc.map (fun q => if q.1 == k then (k, v) else q)) k2 = alookup acc k2 := by
  induction acc with
  | nil => rfl
  | cons q acc ih =>
    by_cases hq : q.1 = k
    · have h1 : (q.1 == k) = true := beq_iff_eq.mpr hq
      have h2 : (k == k2) = false := beq_eq_false_iff_ne.mpr (fun h => hne h.symm)
      have h3 : (q.1 == k2) = false := beq_eq_false_iff_ne.mpr (by
        rw [hq]; exact fun h => hne h.symm)
      simp only [alookup, List.map_cons, List.find?, h1, if_true, h2, h3]
      exact ih
    · have h1 : (q.1 == k) = false := beq_eq_false_iff_ne.mpr hq
      have hred : (if q.1 == k then (k, v) else q) = q := by rw [h1]; simp
      simp only [alookup, List.map_cons, hred, List.find?]
      cases hq2 : (q.1 == k2) with
      | true => rfl
      | false => exact ih

theorem alookup_map_update_self (acc : List (S × S)) (k v : S)
    (hany : acc.any (fun q => q.1 == k) = true) :
    alookup (acc.map (fun q => if q.1 == k then (k, v) else q)) k = some v := by
  induction acc with
  | nil => simp at hany
  | cons q acc ih =>
    by_cases hq : q.1 = k
    · have h1 : (q.1 == k) = true := beq_iff_eq.mpr hq
      simp only [alookup, List.map_cons, List.find?, h1, if_true, beq_self_eq_true]
      rfl
    · have h1 : (q.1 == k) = false := beq_eq_false_iff_ne.mpr hq
      have hany2 : acc.any (fun q => q.1 == k) = true := by
        simp only [List.any_cons, h1, Bool.false_or] at hany
        exact hany
      have hred : (if q.1 == k then (k, v) else q) = q := by rw [h1]; simp
      simp only [alookup, List.map_cons, hred, List.find?, h1, Bool.false_eq_true, if_false]
      exact ih hany2

theorem alookup_append_new (acc : List (S × S)) (k v k2 : S)
    (hany : acc.any (fun q => q.1 == k) = false) :
    alookup (acc ++ [(k, v)]) k2 = if k2 = k then some v else alookup acc k2 := by
  induction acc with
  | nil =>
    by_cases h : k2 = k
    · simp [alookup, List.find?, beq_iff_eq.mpr h.symm, h]
    · simp [alookup, List.find?, beq_eq_false_iff_ne.mpr (fun hh => h hh.symm), h]
  | cons q acc ih =>
    have h1 : (q.1 == k) = false := by
      simp only [List.any_cons, Bool.or_eq_false_iff] at hany
      exact hany.1
    have hany2 : acc.any (fun q => q.1 == k) = false := by
      simp only [List.any_cons, Bool.or_eq_false_iff] at hany
      exact hany.2
    simp only [alookup, List.cons_append, List.find?]
    cases hq2 : (q.1 == k2) with
    | true =>
      have hne : ¬ k2 = k := by
        intro hk
        rw [hk] at hq2
        rw [hq2] at h1
        simp at h1
      simp [hne, alookup, List.find?, hq2]
    | false => simpa [alookup] using ih hany2

theorem alookup_dictInsert_self (acc : List (S × S)) (k v : S) :
    alookup (dictInsert acc k v) k = some v := by
  unfold dictInsert
  split
  · exact alookup_map_update_self acc k v (by assumption)
  · rename_i h
    rw [alookup_append_new acc k v k (Bool.eq_false_iff.mpr h)]
    simp

theorem alookup_dictInsert_other (acc : List (S × S)) (k v k2 : S) (hne : k2 ≠ k) :
    alookup (dictInsert acc k v) k2 = alookup acc k2 := by
  unfold dictInsert
  split
  · exact alookup_map_update acc k v k2 hne
  · rename_i h
    rw [alookup_append_new acc k v k2 (Bool.eq_false_iff.mpr h)]
    simp [hne]

theorem keys_map_update (acc : List (S × S)) (k v : S) :
    (acc.map (fun q => if q.1 == k then (k, v) else q)).map (fun q => q.1)
      = acc.map (fun q => q.1) := by
  induction acc with
  | nil => rfl
  | cons q acc ih =>
    by_cases hq : q.1 = k
    · have h1 : (q.1 == k) = true := beq_iff_eq.mpr hq
      have hred : (if q.1 == k then (k, v) else q) = (k, v) := by rw [h1]; simp
      simp only [List.map_cons, hred, ih]
      rw [hq]
    · have h1 : (q.1 == k) = false := beq_eq_false_iff_ne.mpr hq
      have hred : (if q.1 == k then (k, v) else q) = q := by rw [h1]; simp
      simp only [List.map_cons, hred, ih]

theorem keys_dictInsert (acc : List (S × S)) (k v : S) :
    ((dictInsert acc k v).map (fun q => q.1) = acc.map (fun q => q.1) ∧
      k ∈ acc.map (fun q => q.1)) ∨
    ((dictInsert acc k v).map (fun q => q.1) = acc.map (fun q => q.1) ++ [k] ∧
      k ∉ acc.map (fun q => q.1)) := by
  unfold dictInsert
  split
  · rename_i h
    left
    refine ⟨keys_map_update acc k v, ?_⟩
    obtain ⟨q, hq, hqk⟩ := List.any_eq_true.mp h
    exact List.mem_map.mpr ⟨q, hq, beq_iff_eq.mp hqk⟩
  · rename_i h
    right
    refine ⟨by simp, ?_⟩
    intro hmem
    obtain ⟨q, hq, hqk⟩ := List.mem_map.mp hmem
    have : acc.any (fun q => q.1 == k) = true :=
      List.any_eq_true.mpr ⟨q, hq, beq_iff_eq.mpr hqk⟩
    exact h this

theorem lastValueFor_cons_none (t : S) (rest : List S) (k : S)
    (h : parseNutritionItem t = none) :
    lastValueFor (t :: rest) k = lastValueFor rest k := by
  unfold lastValueFor
  rw [List.filterMap_cons_none h]

theorem lastValueFor_cons_some (t : S) (rest : List S) (k k2 v : S)
    (h : parseNutritionItem t = some (k2, v)) :
    lastValueFor (t :: rest) k =
      if k2 = k then lastOr (lastValueFor rest k) (some v) else lastValueFor rest k := by
  unfold lastValueFor
  rw [List.filterMap_cons_some h, List.filter_cons]
  by_cases hk : k2 = k
  · rw [if_pos (beq_iff_eq.mpr hk), if_pos hk, List.map_cons]
    exact getLast?_cons_eq_lastOr _ _
  · rw [if_neg (by simpa using hk), if_neg hk]

theorem extract_nutrition_props (items : List S) :
    ∀ acc : List (S × S),
      (∀ k, alookup (extract_nutrition items acc) k
        = lastOr (lastValueFor items k) (alookup acc k)) ∧
      (∀ k, k ∈ (extract_nutrition items acc).map (fun q => q.1) ↔
        (k ∈ acc.map (fun q => q.1) ∨
          k ∈ (items.filterMap parseNutritionItem).map (fun q => q.1))) ∧
      ((acc.map (fun q => q.1)).Nodup → ((extract_nutrition items acc).map (fun q => q.1)).Nodup) := by
  induction items with
  | nil =>
    intro acc
    refine ⟨fun k => ?_, fun k => ?_, fun h => ?_⟩
    · cases h : alookup acc k <;>
        simp [extract_nutrition, lastValueFor, lastOr, h]
    · simp [extract_nutrition]
    · simpa [extract_nutrition] using h
  | cons t rest ih =>
    intro acc
    cases hp : parseNutritionItem t with
    | none =>
      obtain ⟨ih1, ih2, ih3⟩ := ih acc
      refine ⟨fun k => ?_, fun k => ?_, fun h => ?_⟩
      · rw [show extract_nutrition (t :: rest) acc = extract_nutrition rest acc from by
          simp [extract_nutrition, hp]]
        rw [lastValueFor_cons_none t rest k hp]
        exact ih1 k
      · rw [show extract_nutrition (t :: rest) acc = extract_nutrition rest acc from by
          simp [extract_nutrition, hp]]
        rw [List.filterMap_cons_none hp]
        exact ih2 k
      · rw [show extract_nutrition (t :: rest) acc = extract_nutrition rest acc from by
          simp [extract_nutrition, hp]]
        exact ih3 h
    | some kv =>
      obtain ⟨k2, v⟩ := kv
      obtain ⟨ih1, ih2, ih3⟩ := ih (dictInsert acc k2 v)
      have hstep : extract_nutrition (t :: rest) acc = extract_nutrition rest (dictInsert acc k2 v) := by
        simp [extract_nutrition, hp]
      refine ⟨fun k => ?_, fun k => ?_, fun h => ?_⟩
      · rw [hstep, ih1 k, lastValueFor_cons_some t rest k k2 v hp]
        by_cases hk : k2 = k
        · rw [if_pos hk, lastOr_lastOr]
          rw [← hk, alookup_dictInsert_self]
        · rw [if_neg hk, alookup_dictInsert_other acc k2 v k (fun hh => hk hh.symm)]
      · rw [hstep, ih2 k, List.filterMap_cons_some hp, List.map_cons]
        rcases keys_dictInsert acc k2 v with ⟨hkeys, hmem⟩ | ⟨hkeys, hmem⟩
        · rw [hkeys]
          constructor
          · rintro (h | h)
            · exact Or.inl h
            · exact Or.inr (List.mem_cons_of_mem _ h)
          · rintro (h | h)
            · exact Or.inl h
            · rcases List.mem_cons.mp h with h | h
              · exact Or.inl (h ▸ hmem)
              · exact Or.inr h
        · rw [hkeys]
          constructor
          · rintro (h | h)
            · rcases List.mem_append.mp h with h | h
              · exact Or.inl h
              · exact Or.inr (List.mem_cons.mpr (Or.inl (List.mem_singleton.mp h)))
            · exact Or.inr (List.mem_cons_of_mem _ h)
          · rintro (h | h)
            · exact Or.inl (List.mem_append.mpr (Or.inl h))
            · rcases List.mem_cons.mp h with h | h
              · exact Or.inl (List.mem_append.mpr (Or.inr (List.mem_singleton.mpr h)))
              · exact Or.inr h
      · rw [hstep]
        apply ih3
        rcases keys_dictInsert acc k2 v with ⟨hkeys, _⟩ | ⟨hkeys, hmem⟩
        · rw [hkeys]; exact h
        · rw [hkeys]
          simp [List.nodup_append, h, hmem]

/-- C5: the nutrition mapping is built from the colon-containing items by
splitting each on its first colon into a trimmed label and value; the
mapping's value at any label is the value of the LAST such item carrying
that label (last-write-wins), its labels are unique, and a label occurs in
the mapping exactly when some colon-containing item parses to it. -/
theorem nutrition_last_write_wins (items : List S) (k : S) :
    alookup (extract_nutrition items []) k = lastValueFor items k ∧
    ((extract_nutrition items []).map (fun q => q.1)).Nodup ∧
    (k ∈ (extract_nutrition items []).map (fun q => q.1) ↔
      k ∈ (items.filterMap parseNutritionItem).map (fun q => q.1)) := by
  obtain ⟨h1, h2, h3⟩ := extract_nutrition_props items []
  refine ⟨?_, h3 (by simp), by simpa using h2 k⟩
  have hk := h1 k
  rw [show alookup ([] : List (S × S)) k = none from rfl] at hk
  cases hy : lastValueFor items k <;> rw [hy] at hk <;> simpa [lastOr] using hk

/-- A rendered list item (`li` element): its class-attribute tokens and its
`get_text(strip=True)` text. -/
structure LItem where
  classes : List S
  text : S
deriving DecidableEq

/-- `"tok" in li.get("class", [])`: class-token membership. -/
def hasClassTok (li : LItem) (c : S) : Bool := li.classes.any (fun x => x == c)

/-- The class marking direction items, from the selector
`li.recipe-directions__item`. -/
def directionsItemClass : S := enc "recipe-directions__item"

/-- The fallback class token "step". -/
def stepTok : S := enc "step"

/-- The instructions section of `extract_recipe_data`, over the document's
list items in document order: collect the text of every li with the
directions class; when that list is empty, collect instead the text of every
li whose class list contains "step". -/
def extract_instructions (doc : List LItem) : List S :=
  let steps := (doc.filter (fun li => hasClassTok li directionsItemClass)).map LItem.text
  if steps.isEmpty then
    (doc.filter (fun li => hasClassTok li stepTok)).map LItem.text
  else steps

/-- The instructions field as claim C8 words it: only the NON-EMPTY texts of
the direction items, with the fallback running when that primary pass yields
no items. -/
def instructions_claim (doc : List LItem) : List S :=
  let prim := ((doc.filter (fun li => hasClassTok li directionsItemClass)).map LItem.text).filter
    (fun t => !t.isEmpty)
  if prim.isEmpty then
    (doc.filter (fun li => hasClassTok li stepTok)).map LItem.text
  else prim

/-- A document whose only list item carries the directions class but has
empty text. -/
def docC8 : List LItem := [⟨[directionsItemClass], []⟩]

/-- C8 counterexample: the code does not filter empty texts from the
instructions (unlike the ingredients), so on a directions item with empty
text it returns [""] while the claim's reading returns []. -/
theorem instructions_nonempty_claim_false :
    extract_instructions docC8 = [[]] ∧
    instructions_claim docC8 = [] ∧
    extract_instructions docC8 ≠ instructions_claim docC8 := by decide

/-- C8 amended: the instructions field contains the text — empty or not — of
every list item carrying the directions class, in document order; only when
there is NO such list item does the fallback collect the text of every list
item whose class list contains the token "step". -/
theorem instructions_with_fallback (doc : List LItem) :
    (doc.filter (fun li => hasClassTok li directionsItemClass) ≠ [] →
      extract_instructions doc =
        (doc.filter (fun li => hasClassTok li directionsItemClass)).map LItem.text) ∧
    (doc.filter (fun li => hasClassTok li directionsItemClass) = [] →
      extract_instructions doc =
        (doc.filter (fun li => hasClassTok li stepTok)).map LItem.text) := by
  constructor
  · intro h
    have : ((doc.filter (fun li => hasClassTok li directionsItemClass)).map LItem.text).isEmpty
        = false := by
      simp [List.isEmpty_iff, h]
    simp [extract_instructions, this]
  · intro h
    simp [extract_instructions, h]

/-- Documents exercising both branches of the amended C8 statement. -/
def docC8a : List LItem := [⟨[directionsItemClass], enc "Mix."⟩, ⟨[stepTok], enc "Bake."⟩]

/-- A document with no directions item, only a step-classed item. -/
def docC8b : List LItem := [⟨[stepTok], enc "Bake."⟩]

theorem instructions_with_fallback_witness :
    extract_instructions docC8a = [enc "Mix."] ∧ extract_instructions docC8b = [enc "Bake."] :=
  ⟨((instructions_with_fallback docC8a).1 (by decide)).trans (by decide),
   ((instructions_with_fallback docC8b).2 (by decide)).trans (by decide)⟩

/-- One output record of the Page Extractor (`extract_recipe_data`). -/
structure RecipeRecord where
  url : S
  title : S
  description : S
  image_url : S
  ingredients : List S
  instructions : List S
  rating : S
  prep_time : S
  cook_time : S
  total_time : S
  nutrition : List (S × S)
  categories : List S
  keywords : List S
deriving DecidableEq

/-- The per-URL loop of `batch_scrape_and_save`: extract a record for each
URL in order and append it only when its ingredients list is non-empty.  (The
record dict itself is always truthy, so `if data and data["ingredients"]`
reduces to the ingredients test.) -/
def batchLoop (extract : S → RecipeRecord) : List S → List RecipeRecord
  | [] => []
  | u :: rest =>
    if (extract u).ingredients.isEmpty then batchLoop extract rest
    else extract u :: batchLoop extract rest

/-- C3: every record retained by the Orchestrator has non-empty ingredients;
a record whose ingredients parsed empty is silently excluded, one with at
least one ingredient is included, and the retained records are exactly the
extractor's outputs in discovery order, unchanged. -/
theorem orchestrator_keeps_nonempty_ingredients (extract : S → RecipeRecord) (urls : List S) :
    batchLoop extract urls =
      (urls.map extract).filter (fun r => !r.ingredients.isEmpty) ∧
    (∀ r ∈ batchLoop extract urls, r.ingredients ≠ []) ∧
    (batchLoop extract urls).Sublist (urls.map extract) ∧
    (∀ r ∈ urls.map extract, r.ingredients ≠ [] → r ∈ batchLoop extract urls) := by
  have heq : batchLoop extract urls =
      (urls.map extract).filter (fun r => !r.ingredients.isEmpty) := by
    induction urls with
    | nil => rfl
    | cons u rest ih =>
      cases h : (extract u).ingredients.isEmpty with
      | true => simp [batchLoop, List.filter_cons, h, ih]
      | false => simp [batchLoop, List.filter_cons, h, ih]
  refine ⟨heq, fun r hr => ?_, heq ▸ List.filter_sublist _, fun r hr hne => ?_⟩
  · rw [heq] at hr
    have := List.of_mem_filter hr
    simpa [List.isEmpty_iff] using this
  · rw [heq]
    exact List.mem_filter.mpr ⟨hr, by simpa [List.isEmpty_iff] using hne⟩

/-- A record with no parsed ingredients. -/
def recEmpty : RecipeRecord :=
  ⟨enc "https://x/recipes/a", enc "N/A", enc "N/A", enc "N/A", [], [], enc "N/A",
   enc "N/A", enc "N/A", enc "N/A", [], [], []⟩

/-- A record with one parsed ingredient. -/
def recFull : RecipeRecord :=
  ⟨enc "https://x/recipes/b", enc "Pie", enc "Tasty pie", enc "https://x/p.jpg",
   [enc "1 cup sugar"], [enc "Mix."], enc "4.5", enc "10 min", enc "20 min",
   enc "30 min", [(enc "Calories", enc "250")], [enc "Dessert"], [enc "tasty"]⟩

/-- A concrete extractor mapping the first URL to an ingredient-less record
and the second to a complete one. -/
def extractC3 : S → RecipeRecord := fun u =>
  if u = enc "https://x/recipes/a" then recEmpty else recFull

theorem orchestrator_keeps_nonempty_ingredients_witness :
    recFull ∈ batchLoop extractC3 [enc "https://x/recipes/a", enc "https://x/recipes/b"] ∧
    batchLoop extractC3 [enc "https://x/recipes/a", enc "https://x/recipes/b"] = [recFull] :=
  ⟨(orchestrator_keeps_nonempty_ingredients extractC3
      [enc "https://x/recipes/a", enc "https://x/recipes/b"]).2.2.2 recFull
      (by decide) (by decide),
   by decide⟩

/-- Strip trailing slashes. -/
def rstripSlashes (l : S) : S := (l.reverse.dropWhile (fun c => c == 47)).reverse

/-- POSIX `os.path.dirname`: everything up to the last "/" ("" when the path
has no directory component); a head that is neither empty nor all slashes is
stripped of trailing slashes. -/
def dirname (p : S) : S :=
  let i := p.length - (p.reverse.takeWhile (fun c => !(c == 47))).length
  let head := p.take i
  if head.isEmpty || head.all (fun c => c == 47) then head else rstripSlashes head

/-- How a batch run can abort. -/
inductive BatchError where
  | mkdirFailure
  | fetchFailure (url : S)
deriving DecidableEq

/-- Embedding of `content_extractor.batch_scrape_and_save`, instrumented with
the fetch trace.  `os.makedirs(os.path.dirname(output_path), exist_ok=True)`
runs first and raises `FileNotFoundError` exactly when its argument is the
empty path (with `exist_ok=True` every non-empty path can be created in the
abstract filesystem); then the URLs are collected, each is extracted in
order, records with empty ingredients are dropped, and the retained list is
what gets serialized to the output file (the `.ok` payload).  An abort
carries no records: nothing is written. -/
def batch_scrape_and_saveT (fetch : Fetch) (extract : S → RecipeRecord) (limit : Nat)
    (output_path : S) : List S × Except BatchError (List RecipeRecord) :=
  if (dirname output_path).isEmpty then ([], .error .mkdirFailure)
  else
    match extract_all_recipe_urlsT fetch limit with
    | (t, .error e) => (t, .error (.fetchFailure e))
    | (t, .ok urls) => (t, .ok (batchLoop extract urls))

theorem takeWhile_all_eq {p : Nat → Bool} :
    ∀ l : List Nat, (∀ x ∈ l, p x = true) → l.takeWhile p = l := by
  intro l
  induction l with
  | nil => intro _; rfl
  | cons c cs ih =>
    intro h
    simp [List.takeWhile_cons, h c (List.mem_cons_self c cs),
      ih (fun x hx => h x (List.mem_cons_of_mem c hx))]

/-- C10: when the output path is a bare filename (no "/" anywhere in it),
`runBatch` fails at the initial ensure-output-directory step — the directory
name is empty and creating it raises — before any sitemap is fetched, any
URL collected or any record extracted, whatever the transport and extractor
would have returned, so nothing is written. -/
theorem bare_filename_aborts_run (fetch : Fetch) (extract : S → RecipeRecord)
    (limit : Nat) (output_path : S) (hbare : ∀ c ∈ output_path, c ≠ 47) :
    dirname output_path = [] ∧
    batch_scrape_and_saveT fetch extract limit output_path = ([], .error .mkdirFailure) := by
  have hd : dirname output_path = [] := by
    unfold dirname
    have htw : output_path.reverse.takeWhile (fun c => !(c == 47)) = output_path.reverse := by
      apply takeWhile_all_eq
      intro x hx
      have : x ≠ 47 := hbare x (List.mem_reverse.mp hx)
      simpa using this
    rw [htw, List.length_reverse, Nat.sub_self]
    simp
  exact ⟨hd, by simp [batch_scrape_and_saveT, hd]⟩

theorem bare_filename_aborts_run_witness :
    dirname (enc "recipes.json") = [] ∧
    batch_scrape_and_saveT fetchC1 extractC3 100 (enc "recipes.json") =
      ([], .error .mkdirFailure) :=
  bare_filename_aborts_run fetchC1 extractC3 100 (enc "recipes.json") (by decide)
